/-
Verification of the scheduling engine of the CPU-Job-Scheduling-Visualization
repository (src/lib/schedulingAlgorithms.ts, current variant with switching
overhead and queue snapshots, plus the validateInputs guard of the page
component).

Modelling conventions:
- JavaScript numbers are modelled as exact rationals.  The floating-point
  completion epsilon 0.00001 of the source is the rational 1/100000.
- The parallel arrays cpuJobs / cpuOverheadEndTimes / cpuTimeRemaining of the
  source are modelled as one list of per-CPU records, walked in index order
  exactly as the source for-loops walk i = 0 .. cpuCount-1.
- Array.prototype.sort with a numeric comparator is stable; it is modelled by
  a stable insertion sort keyed on (comparator result less-or-equal zero),
  which produces the same (unique) stably sorted list for the total preorder
  comparators used by the source.
- String.prototype.localeCompare on the ASCII job ids used by the tool is
  modelled by the lexicographic order on strings.
- JavaScript objects used as string-keyed maps (jobResults, jobStartTimes)
  are modelled by insertion-ordered association lists with update-in-place
  semantics.
- The top-level while loops are modelled with an explicit fuel parameter that
  is large enough for the inputs appearing in the theorems below; when the
  loop body signals termination (the loop condition fails or the source
  breaks), the run stops regardless of remaining fuel.
-/
import Mathlib

namespace SchedViz

/-- The Job record of src/lib/types.ts. -/
structure Job where
  id : String
  arrivalTime : ℚ
  burstTime : ℚ
  remainingTime : ℚ
deriving DecidableEq, Repr

/-- The JobResult record of src/lib/types.ts. -/
structure JobResult where
  startTime : ℚ
  endTime : ℚ
  turnaroundTime : ℚ
deriving DecidableEq, Repr

/-- The CPUTimeSlot record of src/lib/types.ts; isOverhead is the optional
flag set only on overhead segments (absent means false). -/
structure CPUTimeSlot where
  cpuId : Nat
  jobId : String
  startTime : ℚ
  endTime : ℚ
  isOverhead : Bool := false
deriving DecidableEq, Repr

/-- The QueueSnapshot record of src/lib/types.ts. -/
structure QueueSnapshot where
  time : ℚ
  readyQueue : List Job
deriving DecidableEq, Repr

/-- The ScheduleResult record of src/lib/types.ts, restricted to the fields
the engine functions actually return. -/
structure ScheduleResult where
  jobResults : List (String × JobResult)
  cpuTimeSlots : List CPUTimeSlot
  queueSnapshots : List QueueSnapshot
  averageTurnaroundTime : ℚ
  cpuUtilization : ℚ
deriving DecidableEq, Repr

/-- The completion epsilon 0.00001 used by the source for floating point
comparison. -/
def epsilon : ℚ := 1 / 100000

/-- Math.min on two numbers. -/
def jsMin (a b : ℚ) : ℚ := if a ≤ b then a else b

/-- Math.max on two numbers. -/
def jsMax (a b : ℚ) : ℚ := if a ≤ b then b else a

/-- Running minimum against a possibly-Infinity accumulator (none stands for
the Infinity initial value of nextEventTime). -/
def optMin (acc : Option ℚ) (x : ℚ) : Option ℚ :=
  match acc with
  | none => some x
  | some y => some (jsMin y x)

/-- String.prototype.localeCompare modelled on the lexicographic string
order: negative, zero or positive as the first id sorts before, equal to or
after the second. -/
def localeCompare (a b : String) : ℚ :=
  if a = b then 0 else if a < b then -1 else 1

/-- Sort comparator for the job queue by arrival time
(sortByArrivalTime in schedulingAlgorithms.ts). -/
def sortByArrivalTime (a b : Job) : ℚ :=
  if a.arrivalTime ≠ b.arrivalTime then a.arrivalTime - b.arrivalTime
  else localeCompare a.id b.id

/-- Sort comparator for SRTN: by remaining time, then arrival time
(sortByRemainingTime in schedulingAlgorithms.ts). -/
def sortByRemainingTime (a b : Job) : ℚ :=
  if a.remainingTime ≠ b.remainingTime then a.remainingTime - b.remainingTime
  else a.arrivalTime - b.arrivalTime

/-- Insert an element into a list sorted by comparator c, in front of the
first element it compares less-or-equal to; used to model the stable
Array.prototype.sort. -/
def stableInsert (c : α → α → ℚ) (x : α) : List α → List α
  | [] => [x]
  | y :: ys => if c x y ≤ 0 then x :: y :: ys else y :: stableInsert c x ys

/-- Stable sort by a numeric comparator, modelling Array.prototype.sort. -/
def stableSort (c : α → α → ℚ) : List α → List α
  | [] => []
  | x :: xs => stableInsert c x (stableSort c xs)

/-- Deep copy of a job list via JSON round trip (deepCopyJobs in
schedulingAlgorithms.ts); on these records the round trip rebuilds every
field value. -/
def deepCopyJobs (jobs : List Job) : List Job :=
  jobs.map fun j => ⟨j.id, j.arrivalTime, j.burstTime, j.remainingTime⟩

/-- Snapshot of the ready queue (takeQueueSnapshot in
schedulingAlgorithms.ts). -/
def takeQueueSnapshot (time : ℚ) (readyQueue : List Job) : QueueSnapshot :=
  ⟨time, deepCopyJobs readyQueue⟩

/-- Lookup in a JavaScript-object-style association list. -/
def lookupA (m : List (String × β)) (k : String) : Option β :=
  match m with
  | [] => none
  | (k2, v2) :: rest => if k2 = k then some v2 else lookupA rest k

/-- Assignment m[k] = v on a JavaScript-object-style association list:
update in place when the key exists, append otherwise. -/
def upsert (m : List (String × β)) (k : String) (v : β) : List (String × β) :=
  match m with
  | [] => [(k, v)]
  | (k2, v2) :: rest => if k2 = k then (k, v) :: rest else (k2, v2) :: upsert rest k v

/-- Record the first start time of a job: set only while the stored value is
still null (the jobStartTimes update of the source). -/
def recordStart (m : List (String × Option ℚ)) (id : String) (t : ℚ) :
    List (String × Option ℚ) :=
  if lookupA m id = some none then upsert m id (some t) else m

/-- Initialization of jobStartTimes: one null entry per job id. -/
def initStartTimes (jobs : List Job) : List (String × Option ℚ) :=
  jobs.foldl (fun m j => upsert m j.id none) []

/-- Start time recorded for a completed job; the source reads
jobStartTimes[job.id] with a non-null assertion, so the default branch is
unreachable on runs where the job has been started. -/
def startTimeOf (m : List (String × Option ℚ)) (id : String) : ℚ :=
  match lookupA m id with
  | some (some v) => v
  | _ => 0

/-- Walk the CPU list in index order, threading the rest of the state
through; this is the shape of every for-loop over i = 0 .. cpuCount-1 in the
source. -/
def cpuWalk (f : Nat → γ → σ → γ × σ) : Nat → List γ → σ → List γ × σ
  | _, [], s => ([], s)
  | i, c :: rest, s =>
    let p := f i c s
    let q := cpuWalk f (i + 1) rest p.2
    (p.1 :: q.1, q.2)

/-- Average turnaround time over the values of the jobResults map
(calculateAverageTurnaroundTime in schedulingAlgorithms.ts). -/
def calculateAverageTurnaroundTime (jobResults : List (String × JobResult)) : ℚ :=
  let turnaroundTimes := jobResults.map fun p => p.2.turnaroundTime
  if turnaroundTimes.length = 0 then 0
  else turnaroundTimes.foldl (· + ·) 0 / (turnaroundTimes.length : ℚ)

/-- CPU utilization excluding overhead segments (calculateCPUUtilization in
schedulingAlgorithms.ts). -/
def calculateCPUUtilization (cpuTimeSlots : List CPUTimeSlot) (totalTime : ℚ)
    (cpuCount : Nat) : ℚ :=
  if totalTime ≤ 0 then 0
  else
    let productiveTimeSlots := cpuTimeSlots.filter fun slot => !slot.isOverhead
    let totalProductiveTime :=
      productiveTimeSlots.foldl (fun sum slot => sum + (slot.endTime - slot.startTime)) 0
    totalProductiveTime / (totalTime * (cpuCount : ℚ)) * 100

/-- Makespan Math.max(...cpuTimeSlots.map(slot => slot.endTime)), 0 when the
trace is empty. -/
def totalTimeOf (cpuTimeSlots : List CPUTimeSlot) : ℚ :=
  match cpuTimeSlots with
  | [] => 0
  | slot :: rest => rest.foldl (fun m x => jsMax m x.endTime) slot.endTime

/-- Per-CPU state of calculateSRTN: the i-th entries of the parallel arrays
cpuJobs and cpuOverheadEndTimes. -/
structure SRTNCpu where
  job : Option Job
  overheadEnd : ℚ
deriving DecidableEq, Repr

/-- Loop state of calculateSRTN. -/
structure SRTNState where
  remainingJobs : List Job
  runningJobs : List Job
  cpuTimeSlots : List CPUTimeSlot
  queueSnapshots : List QueueSnapshot
  currentTime : ℚ
  jobResults : List (String × JobResult)
  jobStartTimes : List (String × Option ℚ)
  cpus : List SRTNCpu
deriving DecidableEq, Repr

/-- One step of the SRTN assignment for-loop (schedulingAlgorithms.ts lines
124-166): skip CPUs in overhead, preempt the resident job when the queue
head has strictly smaller remaining time, assign the queue head to a free
CPU. -/
def srtnAssignCpu (switchingOverhead : ℚ) (i : Nat) (c : SRTNCpu)
    (s : SRTNState) : SRTNCpu × SRTNState :=
  if s.currentTime < c.overheadEnd then (c, s)
  else
    match c.job with
    | some job =>
      match s.runningJobs with
      | top :: _ =>
        if top.remainingTime < job.remainingTime then
          let s2 := { s with runningJobs := s.runningJobs ++ [job] }
          if 0 < switchingOverhead then
            (⟨none, s.currentTime + switchingOverhead⟩,
             { s2 with cpuTimeSlots := s2.cpuTimeSlots ++
                 [⟨i, "OVERHEAD", s.currentTime, s.currentTime + switchingOverhead, true⟩] })
          else ({ c with job := none }, s2)
        else (c, s)
      | [] => (c, s)
    | none =>
      match s.runningJobs with
      | top :: rest =>
        if c.overheadEnd ≤ s.currentTime then
          ({ c with job := some top },
           { s with runningJobs := rest,
                    jobStartTimes := recordStart s.jobStartTimes top.id s.currentTime })
        else (c, s)
      | [] => (c, s)

/-- Next event time of calculateSRTN (lines 168-198): earliest of the next
arrival, the overhead expiries still running, and the completion times of
resident jobs; none models Infinity. -/
def srtnNextEvent (s : SRTNState) : Option ℚ :=
  let e1 : Option ℚ :=
    match s.remainingJobs with
    | [] => none
    | j :: _ => some j.arrivalTime
  let e2 := s.cpus.foldl
    (fun acc c => if s.currentTime < c.overheadEnd then optMin acc c.overheadEnd else acc) e1
  let e3 := s.cpus.foldl
    (fun acc c =>
      match c.job with
      | some job =>
        if c.overheadEnd ≤ s.currentTime then optMin acc (s.currentTime + job.remainingTime)
        else acc
      | none => acc) e2
  match e3 with
  | none =>
    match s.remainingJobs with
    | [] => none
    | j :: _ => some j.arrivalTime
  | some x => some x

/-- One step of the SRTN slot-processing for-loop (lines 200-253): emit the
productive segment, deduct the elapsed time, and on completion record the
job result and either add switching overhead or hand the CPU to the next
queued job. -/
def srtnServeCpu (switchingOverhead nextT : ℚ) (i : Nat) (c : SRTNCpu)
    (s : SRTNState) : SRTNCpu × SRTNState :=
  match c.job with
  | some job =>
    if c.overheadEnd ≤ s.currentTime then
      let timeSpent := nextT - s.currentTime
      let s2 := { s with cpuTimeSlots := s.cpuTimeSlots ++
          [⟨i, job.id, s.currentTime, nextT, false⟩] }
      let job2 := { job with remainingTime := job.remainingTime - timeSpent }
      if job2.remainingTime ≤ epsilon then
        let res : JobResult :=
          ⟨startTimeOf s2.jobStartTimes job2.id, nextT, nextT - job2.arrivalTime⟩
        let s3 := { s2 with jobResults := upsert s2.jobResults job2.id res }
        match s3.runningJobs with
        | [] => ({ c with job := none }, s3)
        | top :: rest =>
          if 0 < switchingOverhead then
            (⟨none, nextT + switchingOverhead⟩,
             { s3 with cpuTimeSlots := s3.cpuTimeSlots ++
                 [⟨i, "OVERHEAD", nextT, nextT + switchingOverhead, true⟩] })
          else
            ({ c with job := some top },
             { s3 with runningJobs := rest,
                       jobStartTimes := recordStart s3.jobStartTimes top.id nextT })
      else ({ c with job := some job2 }, s2)
    else (c, s)
  | none => (c, s)

/-- Tail of one calculateSRTN loop iteration after the arrival phase: the
assignment for-loop, the next-event computation and the slot-emission
for-loop. -/
def srtnTail (switchingOverhead : ℚ) (s2 : SRTNState) : SRTNState × Bool :=
  let w := cpuWalk (srtnAssignCpu switchingOverhead) 0 s2.cpus s2
  let s3 := { w.2 with cpus := w.1 }
  match srtnNextEvent s3 with
  | none => (s3, false)
  | some nextT =>
    let w2 := cpuWalk (srtnServeCpu switchingOverhead nextT) 0 s3.cpus s3
    ({ w2.2 with cpus := w2.1, currentTime := nextT }, true)

/-- One iteration of the calculateSRTN while loop; the Bool is false when
the loop condition fails or the body breaks on nextEventTime Infinity. -/
def srtnStep (switchingOverhead : ℚ) (s : SRTNState) : SRTNState × Bool :=
  if s.remainingJobs = [] ∧ s.runningJobs = [] ∧ s.cpus.all (fun c => c.job = none) then
    (s, false)
  else
    let t := s.currentTime
    let newlyArrived := s.remainingJobs.takeWhile fun j => decide (j.arrivalTime ≤ t)
    let s1 : SRTNState := { s with
      remainingJobs := s.remainingJobs.filter fun j => decide (t < j.arrivalTime),
      runningJobs := stableSort sortByRemainingTime (s.runningJobs ++ newlyArrived) }
    let s2 : SRTNState :=
      if newlyArrived ≠ [] ∨ s1.runningJobs ≠ [] then
        { s1 with queueSnapshots := s1.queueSnapshots ++ [takeQueueSnapshot t s1.runningJobs] }
      else s1
    srtnTail switchingOverhead s2

/-- Fueled iteration of the while loop; stops early as soon as a step
signals termination. -/
def srtnRun (switchingOverhead : ℚ) : Nat → SRTNState → SRTNState
  | 0, s => s
  | fuel + 1, s =>
    match srtnStep switchingOverhead s with
    | (s2, true) => srtnRun switchingOverhead fuel s2
    | (s2, false) => s2

/-- Fuel bound for the simulations; generous for every input used below. -/
def schedFuel (jobs : List Job) : Nat := (jobs.length + 3) ^ 3

/-- Initial loop state of calculateSRTN. -/
def initSRTN (jobs : List Job) (cpuCount : Nat) : SRTNState :=
  { remainingJobs := stableSort sortByArrivalTime (deepCopyJobs jobs)
    runningJobs := []
    cpuTimeSlots := []
    queueSnapshots := [takeQueueSnapshot 0 []]
    currentTime := 0
    jobResults := []
    jobStartTimes := initStartTimes jobs
    cpus := List.replicate cpuCount (⟨none, 0⟩ : SRTNCpu) }

/-- Aggregation performed after the loop of either algorithm (lines 259-274
and 477-492). -/
def finishResult (s : List (String × JobResult)) (slots : List CPUTimeSlot)
    (snaps : List QueueSnapshot) (cpuCount : Nat) : ScheduleResult :=
  { jobResults := s
    cpuTimeSlots := slots
    queueSnapshots := snaps
    averageTurnaroundTime := calculateAverageTurnaroundTime s
    cpuUtilization := calculateCPUUtilization slots (totalTimeOf slots) cpuCount }

/-- The calculateSRTN entry point of schedulingAlgorithms.ts. -/
def calculateSRTN (jobs : List Job) (cpuCount : Nat)
    (switchingOverhead : ℚ := 0) : ScheduleResult :=
  let s := srtnRun switchingOverhead (schedFuel jobs) (initSRTN jobs cpuCount)
  finishResult s.jobResults s.cpuTimeSlots s.queueSnapshots cpuCount

/-- Per-CPU state of calculateRoundRobin: the i-th entries of cpuJobs,
cpuTimeRemaining and cpuOverheadEndTimes. -/
structure RRCpu where
  job : Option Job
  timeRemaining : ℚ
  overheadEnd : ℚ
deriving DecidableEq, Repr

/-- Loop state of calculateRoundRobin. -/
structure RRState where
  remainingJobs : List Job
  readyQueue : List Job
  cpuTimeSlots : List CPUTimeSlot
  queueSnapshots : List QueueSnapshot
  currentTime : ℚ
  jobResults : List (String × JobResult)
  jobStartTimes : List (String × Option ℚ)
  cpus : List RRCpu
deriving DecidableEq, Repr

/-- One step of the Round Robin assignment for-loop (lines 333-349): a free
CPU not in overhead takes the queue head with a fresh slice
min(timeQuantum, remainingTime). -/
def rrAssignCpu (timeQuantum : ℚ) (_i : Nat) (c : RRCpu) (s : RRState) :
    RRCpu × RRState :=
  if s.currentTime < c.overheadEnd then (c, s)
  else
    match c.job, s.readyQueue with
    | none, top :: rest =>
      ({ c with job := some top, timeRemaining := jsMin timeQuantum top.remainingTime },
       { s with readyQueue := rest,
                jobStartTimes := recordStart s.jobStartTimes top.id s.currentTime })
    | _, _ => (c, s)

/-- Next event time of calculateRoundRobin (lines 351-384). -/
def rrNextEvent (s : RRState) : Option ℚ :=
  let e1 : Option ℚ :=
    match s.remainingJobs with
    | [] => none
    | j :: _ => some j.arrivalTime
  let e2 := s.cpus.foldl
    (fun acc c => if s.currentTime < c.overheadEnd then optMin acc c.overheadEnd else acc) e1
  let e3 := s.cpus.foldl
    (fun acc c =>
      match c.job with
      | some _ =>
        if c.overheadEnd ≤ s.currentTime ∧ 0 < c.timeRemaining then
          optMin acc (s.currentTime + c.timeRemaining)
        else acc
      | none => acc) e2
  match e3 with
  | none =>
    match s.remainingJobs with
    | [] => none
    | j :: _ => some j.arrivalTime
  | some x => some x

/-- One step of the Round Robin slot-processing for-loop (lines 387-471):
emit the productive segment, deduct elapsed time from the job and the
slice; on completion record the result and hand over (with optional
overhead); on slice expiry requeue the job at the tail and, without
overhead, immediately pull the next queued job. -/
def rrServeCpu (timeQuantum switchingOverhead nextT : ℚ) (i : Nat) (c : RRCpu)
    (s : RRState) : RRCpu × RRState :=
  match c.job with
  | some job =>
    if c.overheadEnd ≤ s.currentTime then
      let timeSpent := nextT - s.currentTime
      let s2 := { s with cpuTimeSlots := s.cpuTimeSlots ++
          [⟨i, job.id, s.currentTime, nextT, false⟩] }
      let job2 := { job with remainingTime := job.remainingTime - timeSpent }
      let ctr := c.timeRemaining - timeSpent
      if job2.remainingTime ≤ epsilon then
        let res : JobResult :=
          ⟨startTimeOf s2.jobStartTimes job2.id, nextT, nextT - job2.arrivalTime⟩
        let s3 := { s2 with jobResults := upsert s2.jobResults job2.id res }
        match s3.readyQueue with
        | [] => ({ c with job := none, timeRemaining := ctr }, s3)
        | top :: rest =>
          if 0 < switchingOverhead then
            (⟨none, ctr, nextT + switchingOverhead⟩,
             { s3 with cpuTimeSlots := s3.cpuTimeSlots ++
                 [⟨i, "OVERHEAD", nextT, nextT + switchingOverhead, true⟩] })
          else
            ({ c with job := some top, timeRemaining := jsMin timeQuantum top.remainingTime },
             { s3 with readyQueue := rest,
                       jobStartTimes := recordStart s3.jobStartTimes top.id nextT })
      else if ctr ≤ epsilon then
        let c2 : RRCpu :=
          if 0 < switchingOverhead then ⟨none, ctr, nextT + switchingOverhead⟩
          else { c with job := none, timeRemaining := ctr }
        let s3 :=
          if 0 < switchingOverhead then
            { s2 with cpuTimeSlots := s2.cpuTimeSlots ++
                [⟨i, "OVERHEAD", nextT, nextT + switchingOverhead, true⟩] }
          else s2
        let s4 := { s3 with readyQueue := s3.readyQueue ++ [job2] }
        if switchingOverhead ≤ 0 then
          match s4.readyQueue with
          | [] => (c2, s4)
          | top :: rest =>
            ({ c2 with job := some top, timeRemaining := jsMin timeQuantum top.remainingTime },
             { s4 with readyQueue := rest,
                       jobStartTimes := recordStart s4.jobStartTimes top.id nextT })
        else (c2, s4)
      else ({ c with job := some job2, timeRemaining := ctr }, s2)
    else (c, s)
  | none => (c, s)

/-- Tail of one calculateRoundRobin loop iteration after the arrival phase:
the assignment for-loop, the next-event computation and the slot-emission
for-loop. -/
def rrTail (timeQuantum switchingOverhead : ℚ) (s2 : RRState) : RRState × Bool :=
  let w := cpuWalk (rrAssignCpu timeQuantum) 0 s2.cpus s2
  let s3 := { w.2 with cpus := w.1 }
  match rrNextEvent s3 with
  | none => (s3, false)
  | some nextT =>
    let w2 := cpuWalk (rrServeCpu timeQuantum switchingOverhead nextT) 0 s3.cpus s3
    ({ w2.2 with cpus := w2.1, currentTime := nextT }, true)

/-- One iteration of the calculateRoundRobin while loop. -/
def rrStep (timeQuantum switchingOverhead : ℚ) (s : RRState) : RRState × Bool :=
  if s.remainingJobs = [] ∧ s.readyQueue = [] ∧ s.cpus.all (fun c => c.job = none) then
    (s, false)
  else
    let t := s.currentTime
    let newlyArrived := s.remainingJobs.takeWhile fun j => decide (j.arrivalTime ≤ t)
    let s1 : RRState := { s with
      remainingJobs := s.remainingJobs.filter fun j => decide (t < j.arrivalTime),
      readyQueue := s.readyQueue ++ newlyArrived }
    let s2 : RRState :=
      if newlyArrived ≠ [] ∨ s1.readyQueue ≠ [] then
        { s1 with queueSnapshots := s1.queueSnapshots ++ [takeQueueSnapshot t s1.readyQueue] }
      else s1
    rrTail timeQuantum switchingOverhead s2

/-- Fueled iteration of the Round Robin while loop. -/
def rrRun (timeQuantum switchingOverhead : ℚ) : Nat → RRState → RRState
  | 0, s => s
  | fuel + 1, s =>
    match rrStep timeQuantum switchingOverhead s with
    | (s2, true) => rrRun timeQuantum switchingOverhead fuel s2
    | (s2, false) => s2

/-- Initial loop state of calculateRoundRobin. -/
def initRR (jobs : List Job) (cpuCount : Nat) : RRState :=
  { remainingJobs := stableSort sortByArrivalTime (deepCopyJobs jobs)
    readyQueue := []
    cpuTimeSlots := []
    queueSnapshots := [takeQueueSnapshot 0 []]
    currentTime := 0
    jobResults := []
    jobStartTimes := initStartTimes jobs
    cpus := List.replicate cpuCount (⟨none, 0, 0⟩ : RRCpu) }

/-- The calculateRoundRobin entry point of schedulingAlgorithms.ts. -/
def calculateRoundRobin (jobs : List Job) (cpuCount : Nat) (timeQuantum : ℚ)
    (switchingOverhead : ℚ := 0) : ScheduleResult :=
  let s := rrRun timeQuantum switchingOverhead (schedFuel jobs) (initRR jobs cpuCount)
  finishResult s.jobResults s.cpuTimeSlots s.queueSnapshots cpuCount

/-- The two scheduling algorithms selectable in the page component. -/
inductive Algorithm where
  | SRTN : Algorithm
  | RR : Algorithm
deriving DecidableEq, Repr

/-- The specific validation failures reported (as toasts) by validateInputs
in the page component, in check order. -/
inductive ValidationError where
  | noJobsToSchedule : ValidationError
  | invalidCpuCount : ValidationError
  | invalidTimeQuantum : ValidationError
  | invalidSwitchingOverhead : ValidationError
  | invalidJobParameters : ValidationError
deriving DecidableEq, Repr

/-- The validateInputs guard of the page component (src/pages/Index.tsx):
returns the first violated constraint, or none when the configuration is
accepted.  The typeof checks of the source are subsumed by the types of the
model. -/
def validateInputs (jobs : List Job) (cpuCount : Nat)
    (activeAlgorithm : Algorithm) (timeQuantum : ℚ) (switchingOverhead : ℚ) :
    Option ValidationError :=
  if jobs = [] then some .noJobsToSchedule
  else if cpuCount < 1 then some .invalidCpuCount
  else if activeAlgorithm = .RR ∧ timeQuantum ≤ 0 then some .invalidTimeQuantum
  else if switchingOverhead < 0 then some .invalidSwitchingOverhead
  else if jobs.any (fun job => decide (job.arrivalTime < 0 ∨ job.burstTime ≤ 0)) then
    some .invalidJobParameters
  else none

/-- The calculateSRTNSchedule click handler of the page component: validate,
and only on success reset every remainingTime to burstTime and invoke the
engine; none models the early return that leaves the displayed schedule
untouched. -/
def calculateSRTNSchedule (jobs : List Job) (cpuCount : Nat)
    (activeAlgorithm : Algorithm) (timeQuantum : ℚ) (switchingOverhead : ℚ) :
    Option ScheduleResult :=
  if validateInputs jobs cpuCount activeAlgorithm timeQuantum switchingOverhead ≠ none then
    none
  else
    some (calculateSRTN (jobs.map fun j => { j with remainingTime := j.burstTime })
      cpuCount switchingOverhead)

/-- Total productive time a trace records for one job id: the sum of the
durations of the non-overhead segments carrying that id. -/
def productiveTimeFor (slots : List CPUTimeSlot) (jobId : String) : ℚ :=
  ((slots.filter fun sl => decide (sl.jobId = jobId) && !sl.isOverhead).map
    fun sl => sl.endTime - sl.startTime).sum

/-- Valid input in the sense of the specification: a non-empty job list with
pairwise distinct ids, non-negative arrival times, positive burst times, and
remaining time initialized to the burst time (as every caller of the engine
does before a run). -/
def ValidJobs (jobs : List Job) : Prop :=
  jobs ≠ [] ∧
  List.Pairwise (fun a b => a.id ≠ b.id) jobs ∧
  ∀ j ∈ jobs, 0 ≤ j.arrivalTime ∧ 0 < j.burstTime ∧ j.remainingTime = j.burstTime

/-- Well-formedness of a trace: every segment has positive length, and any
two segments on the same CPU, in emission order, do not overlap (the earlier
one ends no later than the later one starts); together these make the
per-CPU segment lists sorted by start time. -/
def WellOrderedSlots (slots : List CPUTimeSlot) : Prop :=
  (∀ sl ∈ slots, sl.startTime < sl.endTime) ∧
  List.Pairwise (fun a b => a.cpuId = b.cpuId → a.endTime ≤ b.startTime) slots

/-- Ordering constraint between two trace segments: when they sit on the
same CPU, the earlier-emitted one ends no later than the other starts. -/
def SlotOrder (a b : CPUTimeSlot) : Prop := a.cpuId = b.cpuId → a.endTime ≤ b.startTime

/-- Loop invariant of calculateSRTN: the emitted trace is positive and
per-CPU ordered, every slot lives on an existing CPU and ends no later than
that CPU becomes available again, and every job still tracked has positive
remaining time. -/
def SRTNInv (s : SRTNState) : Prop :=
  (∀ sl ∈ s.cpuTimeSlots, sl.startTime < sl.endTime) ∧
  List.Pairwise SlotOrder s.cpuTimeSlots ∧
  (∀ sl ∈ s.cpuTimeSlots, sl.cpuId < s.cpus.length) ∧
  (∀ sl ∈ s.cpuTimeSlots, ∀ c, s.cpus[sl.cpuId]? = some c →
    sl.endTime ≤ jsMax s.currentTime c.overheadEnd) ∧
  (∀ c ∈ s.cpus, ∀ j, c.job = some j → 0 < j.remainingTime) ∧
  (∀ j ∈ s.runningJobs, 0 < j.remainingTime) ∧
  (∀ j ∈ s.remainingJobs, 0 < j.remainingTime)

/-- Loop invariant of calculateRoundRobin: the emitted trace is positive and
per-CPU ordered, and every slot lives on an existing CPU and ends no later
than that CPU becomes available again. -/
def RRInv (s : RRState) : Prop :=
  (∀ sl ∈ s.cpuTimeSlots, sl.startTime < sl.endTime) ∧
  List.Pairwise SlotOrder s.cpuTimeSlots ∧
  (∀ sl ∈ s.cpuTimeSlots, sl.cpuId < s.cpus.length) ∧
  (∀ sl ∈ s.cpuTimeSlots, ∀ c, s.cpus[sl.cpuId]? = some c →
    sl.endTime ≤ jsMax s.currentTime c.overheadEnd)

section
attribute [local semireducible] Rat.add Rat.sub Rat.mul Rat.inv

/-- Claim C1 (code bug): for valid inputs the result should contain exactly
one Job Result per input job with turnaroundTime = endTime - arrivalTime at
least burstTime.  The engine violates this: with jobs J1(arrival 0, burst 5)
and J2(arrival 1, burst 2) on one CPU, the preemption at time 1 frees the
CPU without reassigning it, the event scan then finds no further event and
the loop breaks, so calculateSRTN returns NO job results at all and only the
single segment [0,1) of J1. -/
theorem c1_srtn_drops_jobs_after_preemption :
    (calculateSRTN [⟨"J1", 0, 5, 5⟩, ⟨"J2", 1, 2, 2⟩] 1 0).jobResults = [] ∧
    (calculateSRTN [⟨"J1", 0, 5, 5⟩, ⟨"J2", 1, 2, 2⟩] 1 0).cpuTimeSlots =
      [⟨0, "J1", 0, 1, false⟩] := by decide

/-- Claim C3 (code bug): a CPU freed while a job is ready should start its
next segment at the same instant.  With jobs J1(0,5), J2(1,2), J3(3,1) on
one CPU, the CPU is freed by preemption at time 1 while J2 is ready, yet its
next segment only starts at time 3 (the next arrival): the trace below shows
the idle gap [1,3) introduced by the preemption branch. -/
theorem c3_idle_gap_after_preemption :
    (calculateSRTN [⟨"J1", 0, 5, 5⟩, ⟨"J2", 1, 2, 2⟩, ⟨"J3", 3, 1, 1⟩] 1 0).cpuTimeSlots =
      [⟨0, "J1", 0, 1, false⟩, ⟨0, "J3", 3, 4, false⟩, ⟨0, "J2", 4, 6, false⟩,
       ⟨0, "J1", 6, 10, false⟩] := by decide

/-- Claim C6 (code bug): the productive time recorded for each job should
equal its burst time.  On the run of claim C1 the trace records only 1 unit
for J1 (burst 5) and 0 units for J2 (burst 2), because the engine drops both
jobs after the preemption at time 1. -/
theorem c6_productive_time_lost :
    productiveTimeFor (calculateSRTN [⟨"J1", 0, 5, 5⟩, ⟨"J2", 1, 2, 2⟩] 1 0).cpuTimeSlots
        "J1" = 1 ∧
    productiveTimeFor (calculateSRTN [⟨"J1", 0, 5, 5⟩, ⟨"J2", 1, 2, 2⟩] 1 0).cpuTimeSlots
        "J2" = 0 ∧
    (1 : ℚ) ≠ 5 ∧ (0 : ℚ) ≠ 2 := by decide

/-- Claim C2 (counterexample): the claim says the engine itself rejects
cpuCount = 0 with a validation error before any simulation.  In fact
calculateSRTN performs no validation: with zero CPUs it returns an ordinary
Schedule Result (with empty job results and trace but with queue snapshots
and metrics filled in) instead of any error. -/
theorem c2_engine_returns_result_for_zero_cpus :
    calculateSRTN [⟨"J1", 0, 1, 1⟩] 0 0 =
      ⟨[], [], [⟨0, []⟩, ⟨0, [⟨"J1", 0, 1, 1⟩]⟩], 0, 0⟩ := by decide

/-- Claim C4 (counterexample): the claim says ties in remaining time and
arrival time are broken by job identity, making the comparison a total
order.  The comparator compares only remaining time and arrival time: two
distinct jobs that agree on both compare as 0 in both directions, and the
stable sort leaves either input order unchanged rather than ordering by
id. -/
theorem c4_comparator_ignores_identity :
    sortByRemainingTime ⟨"A", 0, 3, 3⟩ ⟨"B", 0, 3, 3⟩ = 0 ∧
    sortByRemainingTime ⟨"B", 0, 3, 3⟩ ⟨"A", 0, 3, 3⟩ = 0 ∧
    (⟨"A", 0, 3, 3⟩ : Job) ≠ ⟨"B", 0, 3, 3⟩ ∧
    stableSort sortByRemainingTime [(⟨"A", 0, 3, 3⟩ : Job), ⟨"B", 0, 3, 3⟩] =
      [⟨"A", 0, 3, 3⟩, ⟨"B", 0, 3, 3⟩] ∧
    stableSort sortByRemainingTime [(⟨"B", 0, 3, 3⟩ : Job), ⟨"A", 0, 3, 3⟩] =
      [⟨"B", 0, 3, 3⟩, ⟨"A", 0, 3, 3⟩] := by decide

/-- Claim C7 (counterexample): for the single job JX(arrival 1, burst 3) on
one CPU, utilization is 75 rather than 100 (the idle prefix [0,1) counts
against the makespan), and Round Robin with quantum 1 splits the work into
three back-to-back segments, so its result is not identical to the SRTN
result. -/
theorem c7_not_identical_and_not_full_utilization :
    (calculateSRTN [⟨"JX", 1, 3, 3⟩] 1 0).cpuUtilization = 75 ∧ (75 : ℚ) ≠ 100 ∧
    (calculateRoundRobin [⟨"JX", 1, 3, 3⟩] 1 1 0).cpuTimeSlots.length = 3 ∧
    calculateRoundRobin [⟨"JX", 1, 3, 3⟩] 1 1 0 ≠ calculateSRTN [⟨"JX", 1, 3, 3⟩] 1 0 := by
  decide

end

/-- Claim C2 (amended): validation happens in the page component, not in the
engine: for every non-empty job list, validateInputs with cpuCount = 0
reports the CPU-count error as the specific violated constraint, and the
click handler returns without invoking the engine, so the caller sees no
trace at all. -/
theorem c2_validation_lives_in_caller (jobs : List Job) (alg : Algorithm) (q oh : ℚ)
    (h : jobs ≠ []) :
    validateInputs jobs 0 alg q oh = some ValidationError.invalidCpuCount ∧
    calculateSRTNSchedule jobs 0 alg q oh = none := by
  have hv : validateInputs jobs 0 alg q oh = some ValidationError.invalidCpuCount := by
    unfold validateInputs
    rw [if_neg h, if_pos (by norm_num)]
  refine ⟨hv, ?_⟩
  unfold calculateSRTNSchedule
  rw [if_pos (by simp [hv])]

/-- Claim C2 witness: the amended statement at the one-job list. -/
theorem c2_validation_witness :
    (([⟨"J1", 0, 1, 1⟩] : List Job) ≠ []) ∧
    validateInputs [⟨"J1", 0, 1, 1⟩] 0 Algorithm.SRTN 1 0 =
      some ValidationError.invalidCpuCount ∧
    calculateSRTNSchedule [⟨"J1", 0, 1, 1⟩] 0 Algorithm.SRTN 1 0 = none :=
  ⟨by simp, c2_validation_lives_in_caller [⟨"J1", 0, 1, 1⟩] Algorithm.SRTN 1 0 (by simp)⟩

lemma sortByRemainingTime_le_zero (a b : Job) :
    sortByRemainingTime a b ≤ 0 ↔
      (a.remainingTime < b.remainingTime ∨
       (a.remainingTime = b.remainingTime ∧ a.arrivalTime ≤ b.arrivalTime)) := by
  unfold sortByRemainingTime
  rcases eq_or_ne a.remainingTime b.remainingTime with h | h
  · rw [if_neg (not_not_intro h), sub_nonpos]
    simp [h]
  · rw [if_pos h, sub_nonpos]
    constructor
    · intro h2
      exact Or.inl (lt_of_le_of_ne h2 h)
    · rintro (h2 | ⟨h2, h3⟩)
      · exact le_of_lt h2
      · exact absurd h2 h

/-- Claim C4 (amended): SRTN selection sorts by smallest remaining time with
ties broken by earliest arrival time only; job identity is not consulted, so
the comparison is a total preorder (total and transitive) rather than a
total order, and jobs equal on both keys compare as 0. -/
theorem c4_total_preorder_on_remaining_then_arrival :
    (∀ a b : Job, sortByRemainingTime a b ≤ 0 ∨ sortByRemainingTime b a ≤ 0) ∧
    (∀ a b c : Job, sortByRemainingTime a b ≤ 0 → sortByRemainingTime b c ≤ 0 →
      sortByRemainingTime a c ≤ 0) ∧
    (∀ a b : Job, a.remainingTime = b.remainingTime → a.arrivalTime = b.arrivalTime →
      sortByRemainingTime a b = 0) := by
  refine ⟨?_, ?_, ?_⟩
  · intro a b
    rw [sortByRemainingTime_le_zero, sortByRemainingTime_le_zero]
    rcases lt_trichotomy a.remainingTime b.remainingTime with h | h | h
    · exact Or.inl (Or.inl h)
    · rcases le_total a.arrivalTime b.arrivalTime with h2 | h2
      · exact Or.inl (Or.inr ⟨h, h2⟩)
      · exact Or.inr (Or.inr ⟨h.symm, h2⟩)
    · exact Or.inr (Or.inl h)
  · intro a b c hab hbc
    rw [sortByRemainingTime_le_zero] at hab hbc ⊢
    rcases hab with h | ⟨h, h2⟩ <;> rcases hbc with g | ⟨g, g2⟩
    · exact Or.inl (h.trans g)
    · exact Or.inl (by rw [← g]; exact h)
    · exact Or.inl (by rw [h]; exact g)
    · exact Or.inr ⟨h.trans g, h2.trans g2⟩
  · intro a b h1 h2
    simp [sortByRemainingTime, h1, h2]

/-- Claim C4 witness: the amended statement applied at concrete jobs. -/
theorem c4_total_preorder_witness :
    (sortByRemainingTime ⟨"A", 0, 1, 1⟩ ⟨"B", 0, 2, 2⟩ ≤ 0 ∨
      sortByRemainingTime ⟨"B", 0, 2, 2⟩ ⟨"A", 0, 1, 1⟩ ≤ 0) ∧
    sortByRemainingTime ⟨"A", 0, 1, 1⟩ ⟨"C", 0, 3, 3⟩ ≤ 0 ∧
    sortByRemainingTime ⟨"A", 2, 3, 3⟩ ⟨"B", 2, 5, 3⟩ = 0 :=
  ⟨c4_total_preorder_on_remaining_then_arrival.1 ⟨"A", 0, 1, 1⟩ ⟨"B", 0, 2, 2⟩,
   c4_total_preorder_on_remaining_then_arrival.2.1 ⟨"A", 0, 1, 1⟩ ⟨"B", 0, 2, 2⟩ ⟨"C", 0, 3, 3⟩
     (by rw [sortByRemainingTime_le_zero]; norm_num)
     (by rw [sortByRemainingTime_le_zero]; norm_num),
   c4_total_preorder_on_remaining_then_arrival.2.2 ⟨"A", 2, 3, 3⟩ ⟨"B", 2, 5, 3⟩ rfl rfl⟩

lemma srtnStep_no_cpus (oh : ℚ) (s : SRTNState) (h : s.cpus = []) :
    ((srtnStep oh s).1).cpuTimeSlots = s.cpuTimeSlots ∧
    ((srtnStep oh s).1).jobResults = s.jobResults ∧ ((srtnStep oh s).1).cpus = [] := by
  unfold srtnStep srtnTail
  split
  · exact ⟨rfl, rfl, h⟩
  · simp only [h, apply_ite SRTNState.cpus, ite_self, cpuWalk]
    split <;>
      simp [apply_ite SRTNState.cpuTimeSlots, apply_ite SRTNState.jobResults,
        apply_ite SRTNState.cpus, ite_self]

lemma srtnRun_no_cpus (oh : ℚ) (fuel : Nat) : ∀ (s : SRTNState), s.cpus = [] →
    (srtnRun oh fuel s).cpuTimeSlots = s.cpuTimeSlots ∧
    (srtnRun oh fuel s).jobResults = s.jobResults := by
  induction fuel with
  | zero => exact fun s _ => ⟨rfl, rfl⟩
  | succ n ih =>
    intro s h
    obtain ⟨h1, h2, h3⟩ := srtnStep_no_cpus oh s h
    rw [srtnRun]
    rcases hs : srtnStep oh s with ⟨s2, b⟩
    rw [hs] at h1 h2 h3
    cases b
    · exact ⟨h1, h2⟩
    · obtain ⟨g1, g2⟩ := ih s2 h3
      exact ⟨g1.trans h1, g2.trans h2⟩

lemma rrStep_no_cpus (q oh : ℚ) (s : RRState) (h : s.cpus = []) :
    ((rrStep q oh s).1).cpuTimeSlots = s.cpuTimeSlots ∧
    ((rrStep q oh s).1).jobResults = s.jobResults ∧ ((rrStep q oh s).1).cpus = [] := by
  unfold rrStep rrTail
  split
  · exact ⟨rfl, rfl, h⟩
  · simp only [h, apply_ite RRState.cpus, ite_self, cpuWalk]
    split <;>
      simp [apply_ite RRState.cpuTimeSlots, apply_ite RRState.jobResults,
        apply_ite RRState.cpus, ite_self]

lemma rrRun_no_cpus (q oh : ℚ) (fuel : Nat) : ∀ (s : RRState), s.cpus = [] →
    (rrRun q oh fuel s).cpuTimeSlots = s.cpuTimeSlots ∧
    (rrRun q oh fuel s).jobResults = s.jobResults := by
  induction fuel with
  | zero => exact fun s _ => ⟨rfl, rfl⟩
  | succ n ih =>
    intro s h
    obtain ⟨h1, h2, h3⟩ := rrStep_no_cpus q oh s h
    rw [rrRun]
    rcases hs : rrStep q oh s with ⟨s2, b⟩
    rw [hs] at h1 h2 h3
    cases b
    · exact ⟨h1, h2⟩
    · obtain ⟨g1, g2⟩ := ih s2 h3
      exact ⟨g1.trans h1, g2.trans h2⟩

/-- Claim C9: called with cpuCount = 0, both engine functions terminate
normally and return a Schedule Result with empty jobResults, empty
cpuTimeSlots, averageTurnaroundTime 0 and cpuUtilization 0, for every job
list; no validation error is raised inside the engine (compare claim C2). -/
theorem c9_zero_cpus_empty_result (jobs : List Job) (oh q : ℚ) :
    (calculateSRTN jobs 0 oh).jobResults = [] ∧
    (calculateSRTN jobs 0 oh).cpuTimeSlots = [] ∧
    (calculateSRTN jobs 0 oh).averageTurnaroundTime = 0 ∧
    (calculateSRTN jobs 0 oh).cpuUtilization = 0 ∧
    (calculateRoundRobin jobs 0 q oh).jobResults = [] ∧
    (calculateRoundRobin jobs 0 q oh).cpuTimeSlots = [] ∧
    (calculateRoundRobin jobs 0 q oh).averageTurnaroundTime = 0 ∧
    (calculateRoundRobin jobs 0 q oh).cpuUtilization = 0 := by
  obtain ⟨h1, h2⟩ := srtnRun_no_cpus oh (schedFuel jobs) (initSRTN jobs 0) (by rfl)
  obtain ⟨g1, g2⟩ := rrRun_no_cpus q oh (schedFuel jobs) (initRR jobs 0) (by rfl)
  simp only [calculateSRTN, calculateRoundRobin, finishResult]
  rw [h1, h2, g1, g2]
  simp [initSRTN, initRR, calculateAverageTurnaroundTime, calculateCPUUtilization, totalTimeOf]

/-- Claim C8: the engine is a pure function of the job field values: the
JSON deep copy rebuilds an equal job list, and running either algorithm on
the copy yields exactly the result of running it on the original, so two
runs on the same input produce identical Schedule Results and the first run
cannot leak state into the second (in the source, deepCopyJobs is what keeps
the caller records unmutated; aliasing itself has no counterpart in this
pure model). -/
theorem c8_pure_function_of_field_values (jobs : List Job) (cpuCount : Nat) (q oh : ℚ) :
    deepCopyJobs jobs = jobs ∧
    calculateSRTN (deepCopyJobs jobs) cpuCount oh = calculateSRTN jobs cpuCount oh ∧
    calculateRoundRobin (deepCopyJobs jobs) cpuCount q oh =
      calculateRoundRobin jobs cpuCount q oh := by
  have h : ∀ l : List Job, deepCopyJobs l = l := by
    intro l
    induction l with
    | nil => rfl
    | cons j js ih =>
      rw [deepCopyJobs, List.map_cons]
      rw [deepCopyJobs] at ih
      rw [ih]
  exact ⟨h jobs, by rw [h jobs], by rw [h jobs]⟩

/-- Claim C10: in Round Robin with zero overhead, when a slice expires on a
CPU while the ready queue is empty and the job still has more than epsilon
remaining, the job is pushed to the queue and immediately pulled back onto
the same CPU at the same instant with a fresh slice of
min(timeQuantum, remainingTime); the emitted segment ends exactly at that
instant, so execution continues with no gap. -/
theorem c10_expired_slice_restarts_same_cpu (earlyQ nextT : ℚ) (i : Nat) (c : RRCpu)
    (s : RRState) (job : Job)
    (hjob : c.job = some job)
    (hoh : c.overheadEnd ≤ s.currentTime)
    (hq : s.readyQueue = [])
    (hrem : epsilon < job.remainingTime - (nextT - s.currentTime))
    (hctr : c.timeRemaining - (nextT - s.currentTime) ≤ epsilon) :
    rrServeCpu earlyQ 0 nextT i c s =
      ({ c with
          job := some { job with remainingTime := job.remainingTime - (nextT - s.currentTime) },
          timeRemaining := jsMin earlyQ (job.remainingTime - (nextT - s.currentTime)) },
       { s with
          cpuTimeSlots := s.cpuTimeSlots ++ [⟨i, job.id, s.currentTime, nextT, false⟩],
          readyQueue := [],
          jobStartTimes := recordStart s.jobStartTimes job.id nextT }) := by
  unfold rrServeCpu
  rw [hjob]
  simp only [hq, hoh, if_pos, if_neg (not_le.mpr hrem), hctr, List.nil_append]
  norm_num

/-- Claim C10 witness: the statement at a concrete expiring slice. -/
theorem c10_expired_slice_witness :
    (epsilon < (3 : ℚ) - ((3 : ℚ) - 1)) ∧ ((2 : ℚ) - ((3 : ℚ) - 1) ≤ epsilon) ∧
    rrServeCpu 2 0 3 0 ⟨some ⟨"A", 0, 5, 3⟩, 2, 0⟩
        ⟨[], [], [], [], 1, [], [("A", some 0)], [⟨some ⟨"A", 0, 5, 3⟩, 2, 0⟩]⟩ =
      (⟨some ⟨"A", 0, 5, 3 - (3 - 1)⟩, jsMin 2 (3 - (3 - 1)), 0⟩,
       ⟨[], [], [⟨0, "A", 1, 3, false⟩], [], 1, [],
        recordStart [("A", some 0)] "A" 3, [⟨some ⟨"A", 0, 5, 3⟩, 2, 0⟩]⟩) :=
  ⟨by norm_num [epsilon], by norm_num [epsilon],
   c10_expired_slice_restarts_same_cpu 2 3 0 _ _ _ rfl (by norm_num) rfl
     (by norm_num [epsilon]) (by norm_num [epsilon])⟩

set_option maxHeartbeats 4000000 in
lemma srtn_single_eval (id : String) (a b : ℚ) (ha : 0 ≤ a) (hb : 0 < b) :
    calculateSRTN [⟨id, a, b, b⟩] 1 0 =
      ⟨[(id, ⟨a, a + b, b⟩)], [⟨0, id, a, a + b, false⟩],
       [⟨0, []⟩, ⟨a, [⟨id, a, b, b⟩]⟩], b, b / (a + b) * 100⟩ := by
  have hab : ¬ (a + b ≤ 0) := by intro h; linarith
  have hbe : ¬ (b ≤ 0) := not_le.mpr hb
  rcases eq_or_lt_of_le ha with rfl | ha2
  · norm_num [calculateSRTN, initSRTN, srtnRun, srtnStep, srtnTail, srtnAssignCpu, srtnNextEvent,
      srtnServeCpu, cpuWalk, stableSort, stableInsert, sortByRemainingTime, sortByArrivalTime,
      localeCompare, deepCopyJobs, takeQueueSnapshot, lookupA, upsert, recordStart,
      initStartTimes, startTimeOf, optMin, jsMin, jsMax, epsilon, schedFuel, finishResult,
      calculateAverageTurnaroundTime, calculateCPUUtilization, totalTimeOf, hab, hbe]
  · have hA : ¬ (a ≤ 0) := not_le.mpr ha2
    have hA2 : ¬ (a < 0) := not_lt.mpr ha
    norm_num [calculateSRTN, initSRTN, srtnRun, srtnStep, srtnTail, srtnAssignCpu, srtnNextEvent,
      srtnServeCpu, cpuWalk, stableSort, stableInsert, sortByRemainingTime, sortByArrivalTime,
      localeCompare, deepCopyJobs, takeQueueSnapshot, lookupA, upsert, recordStart,
      initStartTimes, startTimeOf, optMin, jsMin, jsMax, epsilon, schedFuel, finishResult,
      calculateAverageTurnaroundTime, calculateCPUUtilization, totalTimeOf,
      hab, hbe, hA, hA2, ha, ha2]

set_option maxHeartbeats 4000000 in
lemma rr_single_eval (id : String) (a b q : ℚ) (ha : 0 ≤ a) (hb : 0 < b) (hq : b ≤ q) :
    calculateRoundRobin [⟨id, a, b, b⟩] 1 q 0 =
      ⟨[(id, ⟨a, a + b, b⟩)], [⟨0, id, a, a + b, false⟩],
       [⟨0, []⟩, ⟨a, [⟨id, a, b, b⟩]⟩], b, b / (a + b) * 100⟩ := by
  have hab : ¬ (a + b ≤ 0) := by intro h; linarith
  have hbe : ¬ (b ≤ 0) := not_le.mpr hb
  have hmin : jsMin q b = b := by
    unfold jsMin
    split <;> linarith
  rcases eq_or_lt_of_le ha with rfl | ha2
  · norm_num [calculateRoundRobin, initRR, rrRun, rrStep, rrTail, rrAssignCpu, rrNextEvent,
      rrServeCpu, cpuWalk, stableSort, stableInsert, sortByArrivalTime,
      localeCompare, deepCopyJobs, takeQueueSnapshot, lookupA, upsert, recordStart,
      initStartTimes, startTimeOf, optMin, jsMax, epsilon, schedFuel, finishResult,
      calculateAverageTurnaroundTime, calculateCPUUtilization, totalTimeOf, hab, hbe, hmin, hb]
  · have hA : ¬ (a ≤ 0) := not_le.mpr ha2
    have hA2 : ¬ (a < 0) := not_lt.mpr ha
    norm_num [calculateRoundRobin, initRR, rrRun, rrStep, rrTail, rrAssignCpu, rrNextEvent,
      rrServeCpu, cpuWalk, stableSort, stableInsert, sortByArrivalTime,
      localeCompare, deepCopyJobs, takeQueueSnapshot, lookupA, upsert, recordStart,
      initStartTimes, startTimeOf, optMin, jsMax, epsilon, schedFuel, finishResult,
      calculateAverageTurnaroundTime, calculateCPUUtilization, totalTimeOf,
      hab, hbe, hmin, hA, hA2, ha, ha2, hb]

/-- Claim C7 (amended): for a single job with arrival a, burst b on one CPU
with zero overhead, SRTN and Round Robin with any quantum of at least b
produce identical Schedule Results: one continuous productive segment
[a, a+b), job result (start a, end a+b, turnaround b), and utilization
100 times b / (a + b) (which is 100 exactly when a = 0); for quantum below
b Round Robin splits the segment, and for a above 0 utilization is below
100, as the counterexample shows. -/
theorem c7_single_job_same_result (id : String) (a b q : ℚ)
    (ha : 0 ≤ a) (hb : 0 < b) (hq : b ≤ q) :
    calculateSRTN [⟨id, a, b, b⟩] 1 0 = calculateRoundRobin [⟨id, a, b, b⟩] 1 q 0 ∧
    calculateSRTN [⟨id, a, b, b⟩] 1 0 =
      ⟨[(id, ⟨a, a + b, b⟩)], [⟨0, id, a, a + b, false⟩],
       [⟨0, []⟩, ⟨a, [⟨id, a, b, b⟩]⟩], b, 100 * b / (a + b)⟩ := by
  have h1 := srtn_single_eval id a b ha hb
  have h2 := rr_single_eval id a b q ha hb hq
  have h3 : b / (a + b) * 100 = 100 * b / (a + b) := by
    rw [div_mul_eq_mul_div, mul_comm]
  constructor
  · rw [h1, h2]
  · rw [h1, h3]

/-- Claim C7 witness: the amended statement at job JX(1,3) with quantum 5. -/
theorem c7_single_job_witness :
    ((0 : ℚ) ≤ 1) ∧ ((0 : ℚ) < 3) ∧ ((3 : ℚ) ≤ 5) ∧
    (calculateSRTN [⟨"JX", 1, 3, 3⟩] 1 0 = calculateRoundRobin [⟨"JX", 1, 3, 3⟩] 1 5 0 ∧
     calculateSRTN [⟨"JX", 1, 3, 3⟩] 1 0 =
       ⟨[("JX", ⟨1, 1 + 3, 3⟩)], [⟨0, "JX", 1, 1 + 3, false⟩],
        [⟨0, []⟩, ⟨1, [⟨"JX", 1, 3, 3⟩]⟩], 3, 100 * 3 / (1 + 3)⟩) :=
  ⟨by norm_num, by norm_num, by norm_num,
   c7_single_job_same_result "JX" 1 3 5 (by norm_num) (by norm_num) (by norm_num)⟩


lemma le_jsMax_left (a b : ℚ) : a ≤ jsMax a b := by
  unfold jsMax
  split <;> linarith

lemma le_jsMax_right (a b : ℚ) : b ≤ jsMax a b := by
  unfold jsMax
  split <;> linarith

lemma jsMax_mono_left {a a2 : ℚ} (b : ℚ) (h : a ≤ a2) : jsMax a b ≤ jsMax a2 b := by
  unfold jsMax
  split <;> split <;> linarith

lemma jsMax_eq_left {a b : ℚ} (h : b ≤ a) : jsMax a b = a := by
  unfold jsMax
  split <;> linarith

lemma jsMin_gt {t a b : ℚ} (ha : t < a) (hb : t < b) : t < jsMin a b := by
  unfold jsMin
  split <;> linarith

lemma mem_stableInsert {c : α → α → ℚ} {x a : α} : ∀ (l : List α),
    a ∈ stableInsert c x l → a = x ∨ a ∈ l := by
  intro l
  induction l with
  | nil =>
    intro h
    simp only [stableInsert, List.mem_singleton] at h
    exact Or.inl h
  | cons y ys ih =>
    unfold stableInsert
    split
    · intro h
      rcases List.mem_cons.mp h with h | h
      · exact Or.inl h
      · exact Or.inr h
    · intro h
      rcases List.mem_cons.mp h with h | h
      · exact Or.inr (by simp [h])
      · rcases ih h with h2 | h2
        · exact Or.inl h2
        · exact Or.inr (by simp [h2])

lemma mem_stableSort {c : α → α → ℚ} {a : α} : ∀ (l : List α),
    a ∈ stableSort c l → a ∈ l := by
  intro l
  induction l with
  | nil =>
    intro h
    simp [stableSort] at h
  | cons y ys ih =>
    unfold stableSort
    intro h
    rcases mem_stableInsert _ h with h2 | h2
    · simp [h2]
    · simp [ih h2]

lemma foldl_optMin_gt {β : Type} (t : ℚ) (g : Option ℚ → β → Option ℚ)
    (hg : ∀ acc b, (∀ y, acc = some y → t < y) → ∀ y, g acc b = some y → t < y) :
    ∀ (l : List β) (acc : Option ℚ), (∀ y, acc = some y → t < y) →
      ∀ y, l.foldl g acc = some y → t < y := by
  intro l
  induction l with
  | nil => exact fun acc hacc => hacc
  | cons b bs ih => exact fun acc hacc => ih (g acc b) (hg acc b hacc)

lemma optMin_gt {t x : ℚ} {acc : Option ℚ} (hacc : ∀ y, acc = some y → t < y)
    (hx : t < x) : ∀ y, optMin acc x = some y → t < y := by
  intro y
  unfold optMin
  match acc with
  | none => intro h; cases h; exact hx
  | some z =>
    intro h
    cases h
    exact jsMin_gt (hacc z rfl) hx

lemma cpuWalk_spec {γ σ : Type} (f : Nat → γ → σ → γ × σ)
    (slotsOf : σ → List CPUTimeSlot) (timeOf : σ → ℚ) (ohE : γ → ℚ)
    (good : γ → Prop) (qgood : σ → Prop) (u v : ℚ)
    (hstep : ∀ i c s, timeOf s = u → good c → qgood s →
      timeOf (f i c s).2 = u ∧ qgood (f i c s).2 ∧ good (f i c s).1 ∧
      jsMax u (ohE c) ≤ jsMax v (ohE (f i c s).1) ∧
      ∃ new, slotsOf (f i c s).2 = slotsOf s ++ new ∧
        List.Pairwise SlotOrder new ∧
        ∀ sl ∈ new, sl.cpuId = i ∧ sl.startTime < sl.endTime ∧
          jsMax u (ohE c) ≤ sl.startTime ∧ sl.endTime ≤ jsMax v (ohE (f i c s).1)) :
    ∀ (cs : List γ) (i : Nat) (s : σ) (B : Nat → ℚ),
      timeOf s = u → qgood s → (∀ c ∈ cs, good c) →
      (∀ sl ∈ slotsOf s, sl.startTime < sl.endTime) →
      List.Pairwise SlotOrder (slotsOf s) →
      (∀ sl ∈ slotsOf s, sl.cpuId < i + cs.length) →
      (∀ sl ∈ slotsOf s, sl.cpuId < i → sl.endTime ≤ B sl.cpuId) →
      (∀ sl ∈ slotsOf s, ∀ k, ∀ c, sl.cpuId = i + k → cs[k]? = some c →
        sl.endTime ≤ jsMax u (ohE c)) →
      timeOf (cpuWalk f i cs s).2 = u ∧
      qgood (cpuWalk f i cs s).2 ∧
      (∀ c ∈ (cpuWalk f i cs s).1, good c) ∧
      (cpuWalk f i cs s).1.length = cs.length ∧
      (∀ sl ∈ slotsOf (cpuWalk f i cs s).2, sl.startTime < sl.endTime) ∧
      List.Pairwise SlotOrder (slotsOf (cpuWalk f i cs s).2) ∧
      (∀ sl ∈ slotsOf (cpuWalk f i cs s).2, sl.cpuId < i + cs.length) ∧
      (∀ sl ∈ slotsOf (cpuWalk f i cs s).2, sl.cpuId < i → sl.endTime ≤ B sl.cpuId) ∧
      (∀ sl ∈ slotsOf (cpuWalk f i cs s).2, ∀ k, ∀ c2, sl.cpuId = i + k →
        (cpuWalk f i cs s).1[k]? = some c2 → sl.endTime ≤ jsMax v (ohE c2)) := by
  intro cs
  induction cs with
  | nil =>
    intro i s B h1 h2 h3 h4 h5 h6 h7 h8
    refine ⟨h1, h2, by simp [cpuWalk], by simp [cpuWalk], ?_, ?_, ?_, ?_, ?_⟩ <;>
      simp only [cpuWalk]
    · exact h4
    · exact h5
    · exact h6
    · exact h7
    · intro sl hsl k c2 hid hc2
      simp at hc2
  | cons c rest ih =>
    intro i s B h1 h2 h3 h4 h5 h6 h7 h8
    obtain ⟨g1, g2, g3, g4, new, hnew, hnewpw, hnewok⟩ :=
      hstep i c s h1 (h3 c (by simp)) h2
    have hrw : cpuWalk f i (c :: rest) s =
        ((f i c s).1 :: (cpuWalk f (i + 1) rest (f i c s).2).1,
         (cpuWalk f (i + 1) rest (f i c s).2).2) := by
      rw [cpuWalk]
    -- preconditions for the recursive call
    have hr3 : ∀ c2 ∈ rest, good c2 := fun c2 hc2 => h3 c2 (by simp [hc2])
    have hr4 : ∀ sl ∈ slotsOf (f i c s).2, sl.startTime < sl.endTime := by
      rw [hnew]
      intro sl hsl
      rcases List.mem_append.mp hsl with h | h
      · exact h4 sl h
      · exact (hnewok sl h).2.1
    have hr5 : List.Pairwise SlotOrder (slotsOf (f i c s).2) := by
      rw [hnew]
      refine List.pairwise_append.mpr ⟨h5, hnewpw, ?_⟩
      intro a ha b hb
      intro hid
      have hbid := (hnewok b hb).1
      have haid : a.cpuId = i := by rw [hid, hbid]
      have ha8 := h8 a ha 0 c (by omega) (by simp)
      exact le_trans ha8 (le_trans (le_refl _) ((hnewok b hb).2.2.1))
    have hr6 : ∀ sl ∈ slotsOf (f i c s).2, sl.cpuId < (i + 1) + rest.length := by
      rw [hnew]
      intro sl hsl
      rcases List.mem_append.mp hsl with h | h
      · have := h6 sl h
        simp at this
        omega
      · have := (hnewok sl h).1
        omega
    have hr7 : ∀ sl ∈ slotsOf (f i c s).2, sl.cpuId < i + 1 →
        sl.endTime ≤ (fun k => if k = i then jsMax v (ohE (f i c s).1) else B k) sl.cpuId := by
      rw [hnew]
      intro sl hsl hlt
      rcases List.mem_append.mp hsl with h | h
      · by_cases hi : sl.cpuId = i
        · simp only [hi, if_pos rfl]
          have := h8 sl h 0 c (by omega) (by simp)
          exact le_trans this g4
        · simp only [if_neg hi]
          exact h7 sl h (by omega)
      · have hi := (hnewok sl h).1
        simp only [hi, if_pos rfl]
        exact (hnewok sl h).2.2.2
    have hr8 : ∀ sl ∈ slotsOf (f i c s).2, ∀ k, ∀ c2, sl.cpuId = (i + 1) + k →
        rest[k]? = some c2 → sl.endTime ≤ jsMax u (ohE c2) := by
      rw [hnew]
      intro sl hsl k c2 hid hc2
      rcases List.mem_append.mp hsl with h | h
      · refine h8 sl h (k + 1) c2 (by omega) ?_
        simpa using hc2
      · have := (hnewok sl h).1
        omega
    obtain ⟨p1, p2, p3, p4, p5, p6, p7, p8, p9⟩ :=
      ih (i + 1) (f i c s).2 (fun k => if k = i then jsMax v (ohE (f i c s).1) else B k)
        g1 g2 hr3 hr4 hr5 hr6 hr7 hr8
    rw [hrw]
    refine ⟨p1, p2, ?_, ?_, p5, p6, ?_, ?_, ?_⟩
    · intro c2 hc2
      rcases List.mem_cons.mp hc2 with h | h
      · rw [h]; exact g3
      · exact p3 c2 h
    · simp [p4]
    · intro sl hsl
      have := p7 sl hsl
      simp only [List.length_cons]
      omega
    · intro sl hsl hlt
      have := p8 sl hsl (by omega)
      simpa [Nat.ne_of_lt hlt] using this
    · intro sl hsl k c2 hid hc2
      cases k with
      | zero =>
        simp only [List.getElem?_cons_zero, Option.some.injEq] at hc2
        have := p8 sl hsl (by omega)
        rw [← hc2]
        simpa [hid] using this
      | succ k2 =>
        simp only [List.getElem?_cons_succ] at hc2
        exact p9 sl hsl k2 c2 (by omega) hc2


lemma epsilon_pos : (0 : ℚ) < epsilon := by norm_num [epsilon]

lemma srtnAssignCpu_spec (oh t : ℚ) (R0 : List Job) (i : Nat) (c : SRTNCpu) (s : SRTNState)
    (h1 : s.currentTime = t)
    (hgood : ∀ j, c.job = some j → 0 < j.remainingTime)
    (hqR : s.remainingJobs = R0)
    (hqpos : ∀ j ∈ s.runningJobs, 0 < j.remainingTime) :
    (srtnAssignCpu oh i c s).2.currentTime = t ∧
    ((srtnAssignCpu oh i c s).2.remainingJobs = R0 ∧
      (∀ j ∈ (srtnAssignCpu oh i c s).2.runningJobs, 0 < j.remainingTime)) ∧
    (∀ j, (srtnAssignCpu oh i c s).1.job = some j → 0 < j.remainingTime) ∧
    jsMax t c.overheadEnd ≤ jsMax t (srtnAssignCpu oh i c s).1.overheadEnd ∧
    ∃ new, (srtnAssignCpu oh i c s).2.cpuTimeSlots = s.cpuTimeSlots ++ new ∧
      List.Pairwise SlotOrder new ∧
      ∀ sl ∈ new, sl.cpuId = i ∧ sl.startTime < sl.endTime ∧
        jsMax t c.overheadEnd ≤ sl.startTime ∧
        sl.endTime ≤ jsMax t (srtnAssignCpu oh i c s).1.overheadEnd := by
  unfold srtnAssignCpu
  split
  · -- CPU still in overhead: untouched
    exact ⟨h1, ⟨hqR, hqpos⟩, hgood, le_refl _, [], by simp, by simp, by simp⟩
  · rename_i hg
    have hohle : c.overheadEnd ≤ s.currentTime := not_lt.mp hg
    have hmax : jsMax t c.overheadEnd = t := by
      rw [← h1]
      exact jsMax_eq_left hohle
    split
    · -- resident job
      rename_i job hcj
      split
      · -- non-empty queue
        rename_i top rest hrq
        split
        · -- preemption
          rename_i hpre
          have hqpos2 : ∀ j ∈ s.runningJobs ++ [job], 0 < j.remainingTime := by
            intro j hj
            rcases List.mem_append.mp hj with h | h
            · exact hqpos j h
            · simp only [List.mem_singleton] at h
              exact h ▸ hgood job hcj
          split
          · -- with switching overhead: overhead segment emitted
            rename_i hoh
            refine ⟨h1, ⟨hqR, hqpos2⟩, by simp, ?_,
              [⟨i, "OVERHEAD", s.currentTime, s.currentTime + oh, true⟩], rfl, by simp, ?_⟩
            · rw [hmax, h1]
              calc t ≤ t + oh := by linarith
                _ ≤ jsMax t (t + oh) := le_jsMax_right t (t + oh)
            · intro sl hsl
              simp only [List.mem_singleton] at hsl
              subst hsl
              refine ⟨rfl, by simp only; linarith, ?_, ?_⟩
              · rw [hmax, h1]
              · simp only [h1]
                exact le_jsMax_right t (t + oh)
          · -- no overhead: CPU just freed
            exact ⟨h1, ⟨hqR, hqpos2⟩, by simp, le_refl _, [], by simp, by simp, by simp⟩
        · -- no preemption
          exact ⟨h1, ⟨hqR, hqpos⟩, hgood, le_refl _, [], by simp, by simp, by simp⟩
      · -- empty queue
        exact ⟨h1, ⟨hqR, hqpos⟩, hgood, le_refl _, [], by simp, by simp, by simp⟩
    · -- free CPU
      rename_i hcj
      split
      · -- assign queue head
        rename_i top rest hrq
        split
        · refine ⟨h1, ⟨hqR, ?_⟩, ?_, le_refl _, [], by simp, by simp, by simp⟩
          · intro j hj
            exact hqpos j (by rw [hrq]; simp [hj])
          · intro j hj
            simp only [Option.some.injEq] at hj
            exact hj ▸ hqpos top (by rw [hrq]; simp)
        · rename_i hno
          exact absurd hohle hno
      · -- empty queue
        exact ⟨h1, ⟨hqR, hqpos⟩, by simp [hcj], le_refl _, [], by simp, by simp, by simp⟩


lemma srtnServeCpu_spec (oh t nextT : ℚ) (R0 : List Job) (i : Nat) (c : SRTNCpu)
    (s : SRTNState)
    (htn : t < nextT)
    (h1 : s.currentTime = t)
    (hgood : ∀ j, c.job = some j → 0 < j.remainingTime)
    (hqR : s.remainingJobs = R0)
    (hqpos : ∀ j ∈ s.runningJobs, 0 < j.remainingTime) :
    (srtnServeCpu oh nextT i c s).2.currentTime = t ∧
    ((srtnServeCpu oh nextT i c s).2.remainingJobs = R0 ∧
      (∀ j ∈ (srtnServeCpu oh nextT i c s).2.runningJobs, 0 < j.remainingTime)) ∧
    (∀ j, (srtnServeCpu oh nextT i c s).1.job = some j → 0 < j.remainingTime) ∧
    jsMax t c.overheadEnd ≤ jsMax nextT (srtnServeCpu oh nextT i c s).1.overheadEnd ∧
    ∃ new, (srtnServeCpu oh nextT i c s).2.cpuTimeSlots = s.cpuTimeSlots ++ new ∧
      List.Pairwise SlotOrder new ∧
      ∀ sl ∈ new, sl.cpuId = i ∧ sl.startTime < sl.endTime ∧
        jsMax t c.overheadEnd ≤ sl.startTime ∧
        sl.endTime ≤ jsMax nextT (srtnServeCpu oh nextT i c s).1.overheadEnd := by
  unfold srtnServeCpu
  split
  · -- resident job
    rename_i job hcj
    split
    · -- CPU active (not in overhead)
      rename_i hohle
      have hmax : jsMax t c.overheadEnd = t := by
        rw [← h1]
        exact jsMax_eq_left hohle
      dsimp only
      split
      · -- job completes
        rename_i hdone
        split
        · -- empty queue: CPU goes idle
          refine ⟨h1, ⟨hqR, hqpos⟩, by simp, ?_,
            [⟨i, job.id, s.currentTime, nextT, false⟩], rfl, by simp, ?_⟩
          · rw [hmax]
            exact le_trans (le_of_lt htn) (le_jsMax_left nextT _)
          · intro sl hsl
            simp only [List.mem_singleton] at hsl
            subst hsl
            refine ⟨rfl, by simp only [h1]; exact htn, by rw [hmax, h1], ?_⟩
            exact le_jsMax_left nextT _
        · -- hand over to the next queued job
          rename_i top rest hrq
          split
          · -- with switching overhead
            rename_i hoh
            refine ⟨h1, ⟨hqR, hqpos⟩, by simp, ?_,
              [⟨i, job.id, s.currentTime, nextT, false⟩,
               ⟨i, "OVERHEAD", nextT, nextT + oh, true⟩], by simp, ?_, ?_⟩
            · rw [hmax]
              refine le_trans (le_of_lt htn) (le_jsMax_left nextT _)
            · refine List.pairwise_cons.mpr ⟨?_, by simp⟩
              intro b hb
              simp only [List.mem_singleton] at hb
              subst hb
              intro _
              simp
            · intro sl hsl
              rcases List.mem_cons.mp hsl with h | h
              · subst h
                refine ⟨rfl, by simp only [h1]; exact htn, by rw [hmax, h1], ?_⟩
                exact le_jsMax_left nextT _
              · simp only [List.mem_singleton] at h
                subst h
                refine ⟨rfl, by simp only; linarith, ?_, ?_⟩
                · rw [hmax]
                  exact le_of_lt htn
                · exact le_jsMax_right nextT _
          · -- no overhead: immediate handoff
            refine ⟨h1, ⟨hqR, ?_⟩, ?_, ?_,
              [⟨i, job.id, s.currentTime, nextT, false⟩], rfl, by simp, ?_⟩
            · intro j hj
              exact hqpos j (by rw [hrq]; simp [hj])
            · intro j hj
              simp only [Option.some.injEq] at hj
              exact hj ▸ hqpos top (by rw [hrq]; simp)
            · rw [hmax]
              exact le_trans (le_of_lt htn) (le_jsMax_left nextT _)
            · intro sl hsl
              simp only [List.mem_singleton] at hsl
              subst hsl
              refine ⟨rfl, by simp only [h1]; exact htn, by rw [hmax, h1], ?_⟩
              exact le_jsMax_left nextT _
      · -- job keeps running with reduced remaining time
        rename_i hrem
        refine ⟨h1, ⟨hqR, hqpos⟩, ?_, ?_,
          [⟨i, job.id, s.currentTime, nextT, false⟩], rfl, by simp, ?_⟩
        · intro j hj
          simp only [Option.some.injEq] at hj
          have hlt := not_le.mp hrem
          have heps := epsilon_pos
          subst hj
          simp only at hlt ⊢
          linarith
        · rw [hmax]
          exact le_trans (le_of_lt htn) (le_jsMax_left nextT _)
        · intro sl hsl
          simp only [List.mem_singleton] at hsl
          subst hsl
          refine ⟨rfl, by simp only [h1]; exact htn, by rw [hmax, h1], ?_⟩
          exact le_jsMax_left nextT _
    · -- CPU still in overhead: untouched
      exact ⟨h1, ⟨hqR, hqpos⟩, hgood, jsMax_mono_left _ (le_of_lt htn), [], by simp,
        by simp, by simp⟩
  · -- idle CPU: untouched
    exact ⟨h1, ⟨hqR, hqpos⟩, hgood, jsMax_mono_left _ (le_of_lt htn), [], by simp,
      by simp, by simp⟩

lemma rrAssignCpu_spec (q t : ℚ) (R0 : List Job) (i : Nat) (c : RRCpu) (s : RRState)
    (h1 : s.currentTime = t) (hqR : s.remainingJobs = R0) :
    (rrAssignCpu q i c s).2.currentTime = t ∧
    (rrAssignCpu q i c s).2.remainingJobs = R0 ∧
    jsMax t c.overheadEnd ≤ jsMax t (rrAssignCpu q i c s).1.overheadEnd ∧
    ∃ new, (rrAssignCpu q i c s).2.cpuTimeSlots = s.cpuTimeSlots ++ new ∧
      List.Pairwise SlotOrder new ∧
      ∀ sl ∈ new, sl.cpuId = i ∧ sl.startTime < sl.endTime ∧
        jsMax t c.overheadEnd ≤ sl.startTime ∧
        sl.endTime ≤ jsMax t (rrAssignCpu q i c s).1.overheadEnd := by
  unfold rrAssignCpu
  split
  · exact ⟨h1, hqR, le_refl _, [], by simp, by simp, by simp⟩
  · split <;> exact ⟨h1, hqR, le_refl _, [], by simp, by simp, by simp⟩

lemma rrServeCpu_spec (q oh nextT t : ℚ) (R0 : List Job) (i : Nat) (c : RRCpu)
    (s : RRState)
    (htn : t < nextT)
    (h1 : s.currentTime = t)
    (hqR : s.remainingJobs = R0) :
    (rrServeCpu q oh nextT i c s).2.currentTime = t ∧
    (rrServeCpu q oh nextT i c s).2.remainingJobs = R0 ∧
    jsMax t c.overheadEnd ≤ jsMax nextT (rrServeCpu q oh nextT i c s).1.overheadEnd ∧
    ∃ new, (rrServeCpu q oh nextT i c s).2.cpuTimeSlots = s.cpuTimeSlots ++ new ∧
      List.Pairwise SlotOrder new ∧
      ∀ sl ∈ new, sl.cpuId = i ∧ sl.startTime < sl.endTime ∧
        jsMax t c.overheadEnd ≤ sl.startTime ∧
        sl.endTime ≤ jsMax nextT (rrServeCpu q oh nextT i c s).1.overheadEnd := by
  unfold rrServeCpu
  split
  · -- resident job
    rename_i job hcj
    split
    · -- CPU active (not in overhead)
      rename_i hohle
      have hmax : jsMax t c.overheadEnd = t := by
        rw [← h1]
        exact jsMax_eq_left hohle
      dsimp only
      split
      · -- job completes
        rename_i hdone
        split
        · -- empty ready queue: CPU goes idle
          refine ⟨h1, hqR, ?_,
            [⟨i, job.id, s.currentTime, nextT, false⟩], rfl, by simp, ?_⟩
          · rw [hmax]
            exact le_trans (le_of_lt htn) (le_jsMax_left nextT _)
          · intro sl hsl
            simp only [List.mem_singleton] at hsl
            subst hsl
            refine ⟨rfl, by simp only [h1]; exact htn, by rw [hmax, h1], ?_⟩
            exact le_jsMax_left nextT _
        · -- hand over to the next ready job
          rename_i top rest hrq
          split
          · -- with switching overhead
            rename_i hoh
            refine ⟨h1, hqR, ?_,
              [⟨i, job.id, s.currentTime, nextT, false⟩,
               ⟨i, "OVERHEAD", nextT, nextT + oh, true⟩], by simp, ?_, ?_⟩
            · rw [hmax]
              exact le_trans (le_of_lt htn) (le_jsMax_left nextT _)
            · refine List.pairwise_cons.mpr ⟨?_, by simp⟩
              intro b hb
              simp only [List.mem_singleton] at hb
              subst hb
              intro _
              simp
            · intro sl hsl
              rcases List.mem_cons.mp hsl with h | h
              · subst h
                refine ⟨rfl, by simp only [h1]; exact htn, by rw [hmax, h1], ?_⟩
                exact le_jsMax_left nextT _
              · simp only [List.mem_singleton] at h
                subst h
                refine ⟨rfl, by simp only; linarith, ?_, ?_⟩
                · rw [hmax]
                  exact le_of_lt htn
                · exact le_jsMax_right nextT _
          · -- no overhead: immediate handoff
            refine ⟨h1, hqR, ?_,
              [⟨i, job.id, s.currentTime, nextT, false⟩], rfl, by simp, ?_⟩
            · rw [hmax]
              exact le_trans (le_of_lt htn) (le_jsMax_left nextT _)
            · intro sl hsl
              simp only [List.mem_singleton] at hsl
              subst hsl
              refine ⟨rfl, by simp only [h1]; exact htn, by rw [hmax, h1], ?_⟩
              exact le_jsMax_left nextT _
      · -- job not finished
        rename_i hrem
        split
        · -- quantum expires
          rename_i hctr
          by_cases hoh : 0 < oh
          · -- with switching overhead: CPU enters overhead until nextT + oh
            simp only [if_pos hoh, if_neg (not_le.mpr hoh)]
            refine ⟨h1, hqR, ?_,
              [⟨i, job.id, s.currentTime, nextT, false⟩,
               ⟨i, "OVERHEAD", nextT, nextT + oh, true⟩], by simp, ?_, ?_⟩
            · rw [hmax]
              exact le_trans (le_of_lt htn) (le_jsMax_left nextT _)
            · refine List.pairwise_cons.mpr ⟨?_, by simp⟩
              intro b hb
              simp only [List.mem_singleton] at hb
              subst hb
              intro _
              simp
            · intro sl hsl
              rcases List.mem_cons.mp hsl with h | h
              · subst h
                refine ⟨rfl, by simp only [h1]; exact htn, by rw [hmax, h1], ?_⟩
                exact le_jsMax_left nextT _
              · simp only [List.mem_singleton] at h
                subst h
                refine ⟨rfl, by simp only; linarith, ?_, ?_⟩
                · rw [hmax]
                  exact le_of_lt htn
                · exact le_jsMax_right nextT _
          · -- no overhead: requeue and immediately take the queue head
            simp only [if_neg hoh, if_pos (not_lt.mp hoh)]
            split
            · -- the appended queue cannot be empty
              rename_i hq
              simp at hq
            · refine ⟨h1, hqR, ?_,
                [⟨i, job.id, s.currentTime, nextT, false⟩], rfl, by simp, ?_⟩
              · rw [hmax]
                exact le_trans (le_of_lt htn) (le_jsMax_left nextT _)
              · intro sl hsl
                simp only [List.mem_singleton] at hsl
                subst hsl
                refine ⟨rfl, by simp only [h1]; exact htn, by rw [hmax, h1], ?_⟩
                exact le_jsMax_left nextT _
        · -- slice continues
          refine ⟨h1, hqR, ?_,
            [⟨i, job.id, s.currentTime, nextT, false⟩], rfl, by simp, ?_⟩
          · rw [hmax]
            exact le_trans (le_of_lt htn) (le_jsMax_left nextT _)
          · intro sl hsl
            simp only [List.mem_singleton] at hsl
            subst hsl
            refine ⟨rfl, by simp only [h1]; exact htn, by rw [hmax, h1], ?_⟩
            exact le_jsMax_left nextT _
    · -- CPU still in overhead: untouched
      exact ⟨h1, hqR, jsMax_mono_left _ (le_of_lt htn), [], by simp, by simp, by simp⟩
  · -- idle CPU: untouched
    exact ⟨h1, hqR, jsMax_mono_left _ (le_of_lt htn), [], by simp, by simp, by simp⟩

lemma foldl_optMin_gt_mem {β : Type} (t : ℚ) (g : Option ℚ → β → Option ℚ) :
    ∀ (l : List β), (∀ acc b, b ∈ l → (∀ y, acc = some y → t < y) →
        ∀ y, g acc b = some y → t < y) →
      ∀ (acc : Option ℚ), (∀ y, acc = some y → t < y) →
      ∀ y, l.foldl g acc = some y → t < y := by
  intro l
  induction l with
  | nil => exact fun _ acc hacc => hacc
  | cons b bs ih =>
    intro hg acc hacc
    exact ih (fun a2 b2 hb2 => hg a2 b2 (by simp [hb2])) (g acc b)
      (hg acc b (by simp) hacc)

lemma srtnNextEvent_pos (t : ℚ) (s : SRTNState)
    (h1 : s.currentTime = t)
    (harr : ∀ j ∈ s.remainingJobs, t < j.arrivalTime)
    (hres : ∀ c ∈ s.cpus, ∀ j, c.job = some j → 0 < j.remainingTime) :
    ∀ x, srtnNextEvent s = some x → t < x := by
  intro x hx
  unfold srtnNextEvent at hx
  dsimp only at hx
  split at hx
  · -- candidate folds were empty: fall back to the first arrival
    split at hx
    · simp at hx
    · rename_i j rest hR
      simp only [Option.some.injEq] at hx
      subst hx
      exact harr j (by rw [hR]; simp)
  · rename_i z heq
    simp only [Option.some.injEq] at hx
    subst hx
    refine foldl_optMin_gt_mem t _ s.cpus ?_ _ ?_ z heq
    · -- run-to-completion candidates are strictly in the future
      intro acc c hc hacc
      split
      · rename_i job hcj
        split
        · rename_i hohle
          refine optMin_gt hacc ?_
          have hp := hres c hc job hcj
          rw [h1]
          linarith
        · exact hacc
      · exact hacc
    · -- overhead-end candidates are strictly in the future
      intro y hy
      refine foldl_optMin_gt_mem t _ s.cpus ?_ _ ?_ y hy
      · intro acc c hc hacc
        split
        · rename_i hguard
          rw [h1] at hguard
          exact optMin_gt hacc hguard
        · exact hacc
      · -- the first pending arrival is strictly in the future
        intro y2 hy2
        split at hy2
        · simp at hy2
        · rename_i j rest hR
          simp only [Option.some.injEq] at hy2
          subst hy2
          exact harr j (by rw [hR]; simp)

lemma rrNextEvent_pos (t : ℚ) (s : RRState)
    (h1 : s.currentTime = t)
    (harr : ∀ j ∈ s.remainingJobs, t < j.arrivalTime) :
    ∀ x, rrNextEvent s = some x → t < x := by
  intro x hx
  unfold rrNextEvent at hx
  dsimp only at hx
  split at hx
  · split at hx
    · simp at hx
    · rename_i j rest hR
      simp only [Option.some.injEq] at hx
      subst hx
      exact harr j (by rw [hR]; simp)
  · rename_i z heq
    simp only [Option.some.injEq] at hx
    subst hx
    refine foldl_optMin_gt_mem t _ s.cpus ?_ _ ?_ z heq
    · -- slice-expiry candidates are strictly in the future
      intro acc c hc hacc
      split
      · split
        · rename_i hguard
          refine optMin_gt hacc ?_
          rw [h1]
          have := hguard.2
          linarith
        · exact hacc
      · exact hacc
    · -- overhead-end candidates are strictly in the future
      intro y hy
      refine foldl_optMin_gt_mem t _ s.cpus ?_ _ ?_ y hy
      · intro acc c hc hacc
        split
        · rename_i hguard
          rw [h1] at hguard
          exact optMin_gt hacc hguard
        · exact hacc
      · intro y2 hy2
        split at hy2
        · simp at hy2
        · rename_i j rest hR
          simp only [Option.some.injEq] at hy2
          subst hy2
          exact harr j (by rw [hR]; simp)

lemma srtnTail_inv (oh t : ℚ) (q : SRTNState)
    (h1 : q.currentTime = t)
    (harr : ∀ j ∈ q.remainingJobs, t < j.arrivalTime)
    (hrpos : ∀ j ∈ q.remainingJobs, 0 < j.remainingTime)
    (hpos : ∀ sl ∈ q.cpuTimeSlots, sl.startTime < sl.endTime)
    (hpw : List.Pairwise SlotOrder q.cpuTimeSlots)
    (hlt : ∀ sl ∈ q.cpuTimeSlots, sl.cpuId < q.cpus.length)
    (hbd : ∀ sl ∈ q.cpuTimeSlots, ∀ c, q.cpus[sl.cpuId]? = some c →
      sl.endTime ≤ jsMax t c.overheadEnd)
    (hcpu : ∀ c ∈ q.cpus, ∀ j, c.job = some j → 0 < j.remainingTime)
    (hrun : ∀ j ∈ q.runningJobs, 0 < j.remainingTime) :
    SRTNInv (srtnTail oh q).1 := by
  have hW := cpuWalk_spec (srtnAssignCpu oh) (fun st => st.cpuTimeSlots)
    (fun st => st.currentTime) (fun c => c.overheadEnd)
    (fun c => ∀ j, c.job = some j → 0 < j.remainingTime)
    (fun st => st.remainingJobs = q.remainingJobs ∧
      ∀ j ∈ st.runningJobs, 0 < j.remainingTime)
    t t
    (fun i c st hst hc hq =>
      srtnAssignCpu_spec oh t q.remainingJobs i c st hst hc hq.1 hq.2)
    q.cpus 0 q (fun _ => 0) h1 ⟨rfl, hrun⟩ hcpu hpos hpw
    (fun sl hsl => by have := hlt sl hsl; omega)
    (fun sl hsl h => absurd h (by omega))
    (fun sl hsl k c hid hc => hbd sl hsl c (by
      have hk : sl.cpuId = k := by omega
      rw [hk]
      exact hc))
  unfold srtnTail
  dsimp only
  set W := cpuWalk (srtnAssignCpu oh) 0 q.cpus q with hWdef
  obtain ⟨p1, p2, p3, p4, p5, p6, p7, p8, p9⟩ := hW
  dsimp only at p1 p3 p5 p6 p7 p9
  have harr2 := harr
  rw [← p2.1] at harr2
  have hrpos2 := hrpos
  rw [← p2.1] at hrpos2
  have plen : ∀ sl ∈ W.2.cpuTimeSlots, sl.cpuId < W.1.length := by
    intro sl hsl
    have h7 := p7 sl hsl
    have h4 := p4
    omega
  have pbd : ∀ sl ∈ W.2.cpuTimeSlots, ∀ c, W.1[sl.cpuId]? = some c →
      sl.endTime ≤ jsMax W.2.currentTime c.overheadEnd := by
    intro sl hsl c hc
    rw [p1]
    exact p9 sl hsl sl.cpuId c (by omega) hc
  split
  · -- no next event: the loop breaks with the post-assignment state
    exact ⟨p5, p6, plen, pbd, p3, p2.2, hrpos2⟩
  · -- events remain: positivity of the next event drives the serve loop
    rename_i nextT heq
    have htn : t < nextT :=
      srtnNextEvent_pos t { W.2 with cpus := W.1 } p1 harr2 p3 nextT heq
    obtain ⟨r1, r2, r3, r4, r5, r6, r7, r8, r9⟩ :=
      cpuWalk_spec (srtnServeCpu oh nextT) (fun st => st.cpuTimeSlots)
        (fun st => st.currentTime) (fun c => c.overheadEnd)
        (fun c => ∀ j, c.job = some j → 0 < j.remainingTime)
        (fun st => st.remainingJobs = q.remainingJobs ∧
          ∀ j ∈ st.runningJobs, 0 < j.remainingTime)
        t nextT
        (fun i c st hst hc hq =>
          srtnServeCpu_spec oh t nextT q.remainingJobs i c st htn hst hc hq.1 hq.2)
        W.1 0 { W.2 with cpus := W.1 } (fun _ => 0)
        p1 p2 p3 p5 p6
        (fun sl hsl => by
          have h7 := p7 sl hsl
          have h4 := p4
          omega)
        (fun sl hsl h => absurd h (by omega))
        (fun sl hsl k c hid hc => p9 sl hsl k c hid hc)
    have hrpos3 := hrpos
    rw [← r2.1] at hrpos3
    refine ⟨r5, r6, ?_, ?_, r3, r2.2, hrpos3⟩
    · intro sl hsl
      have h7 := r7 sl hsl
      exact r4.symm ▸ (show sl.cpuId < W.1.length by omega)
    · intro sl hsl c hc
      exact r9 sl hsl sl.cpuId c (by omega) hc

lemma rrTail_inv (quantum oh t : ℚ) (q : RRState)
    (h1 : q.currentTime = t)
    (harr : ∀ j ∈ q.remainingJobs, t < j.arrivalTime)
    (hpos : ∀ sl ∈ q.cpuTimeSlots, sl.startTime < sl.endTime)
    (hpw : List.Pairwise SlotOrder q.cpuTimeSlots)
    (hlt : ∀ sl ∈ q.cpuTimeSlots, sl.cpuId < q.cpus.length)
    (hbd : ∀ sl ∈ q.cpuTimeSlots, ∀ c, q.cpus[sl.cpuId]? = some c →
      sl.endTime ≤ jsMax t c.overheadEnd) :
    RRInv (rrTail quantum oh q).1 := by
  have hW := cpuWalk_spec (rrAssignCpu quantum) (fun st => st.cpuTimeSlots)
    (fun st => st.currentTime) (fun c => c.overheadEnd) (fun _ => True)
    (fun st => st.remainingJobs = q.remainingJobs)
    t t
    (fun i c st hst hc hq => by
      obtain ⟨g1, g2, g3, g4⟩ := rrAssignCpu_spec quantum t q.remainingJobs i c st hst hq
      exact ⟨g1, g2, trivial, g3, g4⟩)
    q.cpus 0 q (fun _ => 0) h1 rfl (fun c hc => trivial) hpos hpw
    (fun sl hsl => by have := hlt sl hsl; omega)
    (fun sl hsl h => absurd h (by omega))
    (fun sl hsl k c hid hc => hbd sl hsl c (by
      have hk : sl.cpuId = k := by omega
      rw [hk]
      exact hc))
  unfold rrTail
  dsimp only
  set W := cpuWalk (rrAssignCpu quantum) 0 q.cpus q with hWdef
  obtain ⟨p1, p2, p3, p4, p5, p6, p7, p8, p9⟩ := hW
  dsimp only at p1 p5 p6 p7 p9
  have harr2 := harr
  rw [← p2] at harr2
  have plen : ∀ sl ∈ W.2.cpuTimeSlots, sl.cpuId < W.1.length := by
    intro sl hsl
    have h7 := p7 sl hsl
    have h4 := p4
    omega
  have pbd : ∀ sl ∈ W.2.cpuTimeSlots, ∀ c, W.1[sl.cpuId]? = some c →
      sl.endTime ≤ jsMax W.2.currentTime c.overheadEnd := by
    intro sl hsl c hc
    rw [p1]
    exact p9 sl hsl sl.cpuId c (by omega) hc
  split
  · exact ⟨p5, p6, plen, pbd⟩
  · rename_i nextT heq
    have htn : t < nextT :=
      rrNextEvent_pos t { W.2 with cpus := W.1 } p1 harr2 nextT heq
    obtain ⟨r1, r2, r3, r4, r5, r6, r7, r8, r9⟩ :=
      cpuWalk_spec (rrServeCpu quantum oh nextT) (fun st => st.cpuTimeSlots)
        (fun st => st.currentTime) (fun c => c.overheadEnd) (fun _ => True)
        (fun st => st.remainingJobs = q.remainingJobs)
        t nextT
        (fun i c st hst hc hq => by
          obtain ⟨g1, g2, g3, g4⟩ :=
            rrServeCpu_spec quantum oh nextT t q.remainingJobs i c st htn hst hq
          exact ⟨g1, g2, trivial, g3, g4⟩)
        W.1 0 { W.2 with cpus := W.1 } (fun _ => 0)
        p1 p2 (fun c hc => trivial) p5 p6
        (fun sl hsl => by
          have h7 := p7 sl hsl
          have h4 := p4
          omega)
        (fun sl hsl h => absurd h (by omega))
        (fun sl hsl k c hid hc => p9 sl hsl k c hid hc)
    refine ⟨r5, r6, ?_, ?_⟩
    · intro sl hsl
      have h7 := r7 sl hsl
      exact r4.symm ▸ (show sl.cpuId < W.1.length by omega)
    · intro sl hsl c hc
      exact r9 sl hsl sl.cpuId c (by omega) hc

lemma srtnStep_inv (oh : ℚ) (s : SRTNState) (hinv : SRTNInv s) :
    SRTNInv (srtnStep oh s).1 := by
  obtain ⟨i1, i2, i3, i4, i5, i6, i7⟩ := hinv
  unfold srtnStep
  split
  · exact ⟨i1, i2, i3, i4, i5, i6, i7⟩
  · dsimp only
    have harr2 : ∀ j ∈ s.remainingJobs.filter
        (fun j => decide (s.currentTime < j.arrivalTime)),
        s.currentTime < j.arrivalTime := by
      intro j hj
      exact of_decide_eq_true (List.mem_filter.mp hj).2
    have hrpos2 : ∀ j ∈ s.remainingJobs.filter
        (fun j => decide (s.currentTime < j.arrivalTime)), 0 < j.remainingTime :=
      fun j hj => i7 j (List.mem_filter.mp hj).1
    have hrun2 : ∀ j ∈ stableSort sortByRemainingTime
        (s.runningJobs ++ s.remainingJobs.takeWhile
          (fun j => decide (j.arrivalTime ≤ s.currentTime))), 0 < j.remainingTime := by
      intro j hj
      rcases List.mem_append.mp (mem_stableSort _ hj) with h | h
      · exact i6 j h
      · exact i7 j (List.Sublist.mem h (List.takeWhile_sublist _))
    split
    · exact srtnTail_inv oh s.currentTime _ rfl harr2 hrpos2 i1 i2 i3 i4 i5 hrun2
    · exact srtnTail_inv oh s.currentTime _ rfl harr2 hrpos2 i1 i2 i3 i4 i5 hrun2

lemma rrStep_inv (quantum oh : ℚ) (s : RRState) (hinv : RRInv s) :
    RRInv (rrStep quantum oh s).1 := by
  obtain ⟨i1, i2, i3, i4⟩ := hinv
  unfold rrStep
  split
  · exact ⟨i1, i2, i3, i4⟩
  · dsimp only
    have harr2 : ∀ j ∈ s.remainingJobs.filter
        (fun j => decide (s.currentTime < j.arrivalTime)),
        s.currentTime < j.arrivalTime := by
      intro j hj
      exact of_decide_eq_true (List.mem_filter.mp hj).2
    split
    · exact rrTail_inv quantum oh s.currentTime _ rfl harr2 i1 i2 i3 i4
    · exact rrTail_inv quantum oh s.currentTime _ rfl harr2 i1 i2 i3 i4

lemma srtnRun_inv (oh : ℚ) : ∀ (fuel : Nat) (s : SRTNState),
    SRTNInv s → SRTNInv (srtnRun oh fuel s) := by
  intro fuel
  induction fuel with
  | zero => exact fun s h => h
  | succ n ih =>
    intro s h
    have hstep := srtnStep_inv oh s h
    unfold srtnRun
    split
    · rename_i s2 heq
      rw [heq] at hstep
      exact ih s2 hstep
    · rename_i s2 heq
      rw [heq] at hstep
      exact hstep

lemma rrRun_inv (quantum oh : ℚ) : ∀ (fuel : Nat) (s : RRState),
    RRInv s → RRInv (rrRun quantum oh fuel s) := by
  intro fuel
  induction fuel with
  | zero => exact fun s h => h
  | succ n ih =>
    intro s h
    have hstep := rrStep_inv quantum oh s h
    unfold rrRun
    split
    · rename_i s2 heq
      rw [heq] at hstep
      exact ih s2 hstep
    · rename_i s2 heq
      rw [heq] at hstep
      exact hstep

lemma initSRTN_inv (jobs : List Job) (cpuCount : Nat)
    (hjobs : ∀ j ∈ jobs, 0 < j.remainingTime) :
    SRTNInv (initSRTN jobs cpuCount) := by
  refine ⟨by simp [initSRTN], by simp [initSRTN], by simp [initSRTN],
    by simp [initSRTN], ?_, by simp [initSRTN], ?_⟩
  · intro c hc j hj
    simp only [initSRTN] at hc
    rw [List.eq_of_mem_replicate hc] at hj
    simp at hj
  · intro j hj
    simp only [initSRTN] at hj
    have h2 := mem_stableSort _ hj
    simp only [deepCopyJobs, List.mem_map] at h2
    obtain ⟨j0, hj0, heq⟩ := h2
    rw [← heq]
    exact hjobs j0 hj0

lemma initRR_inv (jobs : List Job) (cpuCount : Nat) :
    RRInv (initRR jobs cpuCount) := by
  exact ⟨by simp [initRR], by simp [initRR], by simp [initRR], by simp [initRR]⟩

/-- Claim C5: for every valid input and every CPU index, the trace segments
emitted by calculateSRTN and calculateRoundRobin are pairwise
non-overlapping per CPU in emission order (hence sorted by start time on
each CPU) and every segment has endTime strictly greater than startTime. -/
theorem c5_slots_positive_sorted_nonoverlapping (jobs : List Job)
    (cpuCount : Nat) (q oh : ℚ)
    (hjobs : ValidJobs jobs) ( _hcpu : 1 ≤ cpuCount) ( _hq : 0 < q)
    ( _hoh : 0 ≤ oh) :
    WellOrderedSlots (calculateSRTN jobs cpuCount oh).cpuTimeSlots ∧
    WellOrderedSlots (calculateRoundRobin jobs cpuCount q oh).cpuTimeSlots := by
  have hpos : ∀ j ∈ jobs, 0 < j.remainingTime := by
    intro j hj
    have h := hjobs.2.2 j hj
    rw [h.2.2]
    exact h.2.1
  constructor
  · have hinv := srtnRun_inv oh (schedFuel jobs) (initSRTN jobs cpuCount)
      (initSRTN_inv jobs cpuCount hpos)
    exact ⟨hinv.1, hinv.2.1⟩
  · have hinv := rrRun_inv q oh (schedFuel jobs) (initRR jobs cpuCount)
      (initRR_inv jobs cpuCount)
    exact ⟨hinv.1, hinv.2.1⟩

/-- Claim C5 witness: the statement at jobs A(0,2), B(1,1) on one CPU with
switching overhead 1 and quantum 2. -/
theorem c5_slots_witness :
    WellOrderedSlots
      (calculateSRTN [⟨"A", 0, 2, 2⟩, ⟨"B", 1, 1, 1⟩] 1 1).cpuTimeSlots ∧
    WellOrderedSlots
      (calculateRoundRobin [⟨"A", 0, 2, 2⟩, ⟨"B", 1, 1, 1⟩] 1 2 1).cpuTimeSlots :=
  c5_slots_positive_sorted_nonoverlapping [⟨"A", 0, 2, 2⟩, ⟨"B", 1, 1, 1⟩] 1 2 1
    ⟨by decide, by decide, by decide⟩ (by decide) (by decide) (by decide)

end SchedViz
